import Mathlib

/-!
Shallow embedding of the `zen` terminal text editor (src/main.rs) and
verification of the specification's claims about it.

Terminal I/O (raw mode, drawing, the blocking event read) is outside the
embedded core, exactly as the specification scopes it out; the embedding
covers `Buffer` and its operations, the editor session state, the
`bounds` clamp, the action dispatch of `TextEditor::run`, and the
keyboard handlers.

Modelling conventions:
- a Rust panic is modelled as `none` / `StepResult.panic`;
- `u16` values are natural numbers, with wrapping (release-build)
  semantics made explicit through `u16mask`, `add16` and `sub16` at the
  exact places the Rust code casts or can overflow;
- the `Vec<Action>` undo stack is modelled with its most recent entry at
  the head of the list.
-/

set_option linter.unusedVariables false

namespace Zen

/-- A text line of the buffer, modelled as its sequence of characters.
The repository scopes out multi-byte text shaping, where byte and
character indexing agree. -/
abbrev Line := List Char

/-- In-range insertion into a list at an index, modelling the effect of
`String::insert` and `Vec::insert` once their bounds checks have passed. -/
def insertAt : List α → Nat → α → List α
  | l, 0, a => a :: l
  | [], _ + 1, a => [a]
  | x :: xs, i + 1, a => x :: insertAt xs i a

/-- In-range removal from a list at an index, modelling the effect of
`String::remove` and `Vec::remove` once their bounds checks have passed. -/
def eraseAt : List α → Nat → List α
  | [], _ => []
  | _ :: xs, 0 => xs
  | x :: xs, i + 1 => x :: eraseAt xs i

/-- Rust `String::insert`, which panics (`none`) when the index is past
the end of the string. -/
def strInsert (l : Line) (i : Nat) (c : Char) : Option Line :=
  if i ≤ l.length then some (insertAt l i c) else none

/-- Rust `String::remove`, which panics (`none`) when the index is at or
past the end of the string. -/
def strRemove (l : Line) (i : Nat) : Option Line :=
  if i < l.length then some (eraseAt l i) else none

/-- Rust `Vec::insert`, which panics (`none`) when the index is greater
than the length. -/
def vecInsert (ls : List Line) (i : Nat) (x : Line) : Option (List Line) :=
  if i ≤ ls.length then some (insertAt ls i x) else none

/-- Rust `Vec::remove`, which panics (`none`) when the index is out of
bounds. -/
def vecRemove (ls : List Line) (i : Nat) : Option (List Line) :=
  if i < ls.length then some (eraseAt ls i) else none

/-- Truncation to `u16`, as performed by Rust `as u16` casts. -/
def u16mask (n : Nat) : Nat := n % 65536

/-- Wrapping `u16` addition (release-build overflow semantics). -/
def add16 (a b : Nat) : Nat := (u16mask a + u16mask b) % 65536

/-- Wrapping `u16` subtraction (release-build underflow semantics). -/
def sub16 (a b : Nat) : Nat := (u16mask a + 65536 - u16mask b) % 65536

/-- The `Buffer` struct of src/main.rs: a file name and the document's
lines. -/
structure Buffer where
  file : String
  lines : List Line
deriving DecidableEq

/-- `Buffer::get`: returns a copy of the line when `lines.len() >= line + 1`,
otherwise `None`. -/
def Buffer.get (b : Buffer) (line : Nat) : Option Line :=
  if b.lines.length ≥ line + 1 then b.lines[line]? else none

/-- `Buffer::insert(x, y, c)`: when `lines.len() == y` the vector is first
resized to `y + 1` (appending one empty line); then, when line `y` exists,
the character is inserted into it at `x` (`String::insert`, which panics
when `x` is past the end); when line `y` does not exist the call is a
no-op. -/
def Buffer.insert (b : Buffer) (x y : Nat) (c : Char) : Option Buffer :=
  let ls := if b.lines.length = y then b.lines ++ [[]] else b.lines
  match ls[y]? with
  | none => some { b with lines := ls }
  | some line =>
    match strInsert line x c with
    | none => none
    | some line2 => some { b with lines := ls.set y line2 }

/-- `Buffer::insert_line(index, content)`: `Vec::insert`, panicking when
`index > lines.len()`. -/
def Buffer.insert_line (b : Buffer) (index : Nat) (content : Line) : Option Buffer :=
  match vecInsert b.lines index content with
  | none => none
  | some ls => some { b with lines := ls }

/-- `Buffer::remove(x, y)`: when line `y` exists, `String::remove` at `x`
(panicking when `x >= line.len()`); when line `y` does not exist the call
is a no-op. -/
def Buffer.remove (b : Buffer) (x y : Nat) : Option Buffer :=
  match b.lines[y]? with
  | none => some b
  | some line =>
    match strRemove line x with
    | none => none
    | some line2 => some { b with lines := b.lines.set y line2 }

/-- The `Mode` enum: Normal or Insert. -/
inductive Mode where
  | normal
  | insert
deriving DecidableEq

/-- The `Action` enum of src/main.rs, including the two inverse variants
`InsertChar` and `InsertLine` used as undo payloads. -/
inductive Action where
  | moveUp
  | moveDown
  | moveLeft
  | moveRight
  | insert (c : Char)
  | insertLineBelow
  | insertLineAbove
  | deleteLine
  | deleteChar
  | insertChar (x y : Nat) (c : Char)
  | insertLine (y : Nat) (content : Line)
  | undo
  | enterMode (m : Mode)
  | moveEnd
  | moveHome
  | pageDown
  | pageUp
  | quit
deriving DecidableEq

/-- The `TextEditor` session state of src/main.rs, without the `stdout`
handle (pure terminal I/O). `size` is `(width, height)`; `cx`, `cy` are
the `u16` cursor coordinates; `sv` is the `usize` scroll offset;
`command_wait` is the pending-chord slot; `undo` is the undo stack with
its most recent entry at the head. -/
structure TextEditor where
  buffer : Buffer
  size : Nat × Nat
  cx : Nat
  cy : Nat
  mode : Mode
  sv : Nat
  command_wait : Option Char
  undo : List Action
deriving DecidableEq

/-- Outcome of dispatching one action in the `run` loop: a Rust panic, a
loop break (`Action::Quit`), or the next session state. -/
inductive StepResult where
  | panic
  | halt (e : TextEditor)
  | next (e : TextEditor)
deriving DecidableEq

/-- `TextEditor::current_line_len`: length of the line at `cy + sv`, cast
`as u16`, or 0 when there is no such line. -/
def TextEditor.current_line_len (e : TextEditor) : Nat :=
  match e.buffer.get (e.cy + e.sv) with
  | some s => u16mask s.length
  | none => 0

/-- `TextEditor::bounds`: clamps `cx` to the current line length, then,
when `sv + cy` is at or past the end of the buffer, recomputes `cy` with
`u16` arithmetic (`lines.len() as u16 - sv as u16 - 1`, or without the
`- 1` when the buffer is empty). -/
def TextEditor.bounds (e : TextEditor) : TextEditor :=
  let e1 := { e with cx := min e.cx e.current_line_len }
  if e1.sv + e1.cy ≥ e1.buffer.lines.length then
    if e1.buffer.lines.length > 0 then
      { e1 with cy := sub16 (sub16 e1.buffer.lines.length e1.sv) 1 }
    else
      { e1 with cy := sub16 e1.buffer.lines.length e1.sv }
  else
    e1

/-- The action match inside `TextEditor::run`, applied to one action.
`Action::Quit` breaks the loop (`halt`); every Rust panic reachable in an
arm is `StepResult.panic`. -/
def dispatch (e : TextEditor) (a : Action) : StepResult :=
  match a with
  | .quit => .halt e
  | .moveUp =>
    if e.cy = 0 then
      if e.sv > 0 then .next { e with sv := e.sv - 1 } else .next e
    else
      .next { e with cy := e.cy - 1 }
  | .moveDown =>
    let e1 :=
      if u16mask e.buffer.lines.length > add16 e.cy e.sv then
        { e with cy := add16 e.cy 1 }
      else e
    if e1.cy ≥ sub16 e1.size.2 1 then
      .next { e1 with cy := sub16 e1.cy 1, sv := e1.sv + 1 }
    else
      .next e1
  | .moveLeft => .next { e with cx := e.cx - 1 }
  | .moveRight => .next { e with cx := add16 e.cx 1 }
  | .pageUp => .next { e with cy := 0 }
  | .pageDown => .next { e with cy := sub16 e.size.2 2 }
  | .enterMode m => .next { e with mode := m }
  | .moveHome => .next { e with cx := 0 }
  | .moveEnd => .next { e with cx := e.current_line_len }
  | .insert c =>
    match e.buffer.insert e.cx (add16 e.cy e.sv) c with
    | none => .panic
    | some b => .next { e with buffer := b, cx := add16 e.cx 1 }
  | .insertLineBelow =>
    let line := e.cy + e.sv + 1
    match vecInsert e.buffer.lines line [] with
    | none => .panic
    | some ls => .next { e with buffer := { e.buffer with lines := ls }, cy := u16mask line }
  | .insertLineAbove =>
    let line := e.cy + e.sv
    match vecInsert e.buffer.lines line [] with
    | none => .panic
    | some ls => .next { e with buffer := { e.buffer with lines := ls } }
  | .deleteChar =>
    let line := add16 e.cy e.sv
    match e.buffer.get line with
    | none => .panic
    | some line_str =>
      if line_str.length > 0 then
        match e.buffer.remove e.cx line with
        | none => .panic
        | some b =>
          match line_str[e.cx]? with
          | none => .panic
          | some c =>
            .next { e with buffer := b, undo := Action.insertChar e.cx line c :: e.undo }
      else
        .next e
  | .deleteLine =>
    let line := add16 e.cy e.sv
    match e.buffer.get line with
    | none => .panic
    | some line_str =>
      match e.command_wait with
      | some command =>
        if command = 'd' then
          if e.buffer.lines.length > 0 then
            match vecRemove e.buffer.lines line with
            | none => .panic
            | some ls =>
              .next { e with buffer := { e.buffer with lines := ls },
                             undo := Action.insertLine line line_str :: e.undo,
                             command_wait := none }
          else
            .next e
        else
          .next e
      | none => .next { e with command_wait := some 'd' }
  | .undo =>
    match e.undo with
    | [] => .next e
    | entry :: rest =>
      match entry with
      | .insertLine line content =>
        match Buffer.insert_line e.buffer line content with
        | none => .panic
        | some b => .next { e with buffer := b, undo := rest }
      | .insertChar x y c =>
        match Buffer.insert e.buffer x y c with
        | none => .panic
        | some b => .next { e with buffer := b, undo := rest }
      | _ => .next { e with undo := rest }
  | .insertChar _ _ _ => .next e
  | .insertLine _ _ => .next e

/-- Key codes relevant to the two key handlers. -/
inductive KeyCode where
  | char (c : Char)
  | up
  | down
  | left
  | right
  | esc
  | other
deriving DecidableEq

/-- Input events: a key press or a terminal resize carrying the new size. -/
inductive Event where
  | key (k : KeyCode)
  | resize (w h : Nat)
deriving DecidableEq

/-- `TextEditor::handle_normal_event`: the Normal-mode key map; keys not
listed produce no action. -/
def handle_normal_event (ev : Event) : Option Action :=
  match ev with
  | .key k =>
    match k with
    | .char c =>
      if c = 'q' then some .quit
      else if c = 'i' then some (.enterMode .insert)
      else if c = 'b' then some .pageUp
      else if c = 'f' then some .pageDown
      else if c = '0' then some .moveHome
      else if c = '$' then some .moveEnd
      else if c = 'd' then some .deleteLine
      else if c = 'x' then some .deleteChar
      else if c = 'u' then some .undo
      else if c = 'o' then some .insertLineBelow
      else if c = 'O' then some .insertLineAbove
      else none
    | .up => some .moveUp
    | .down => some .moveDown
    | .left => some .moveLeft
    | .right => some .moveRight
    | _ => none
  | _ => none

/-- `TextEditor::handle_insert_event`: Esc leaves Insert mode, any
character key inserts itself. -/
def handle_insert_event (ev : Event) : Option Action :=
  match ev with
  | .key k =>
    match k with
    | .esc => some (.enterMode .normal)
    | .char c => some (.insert c)
    | _ => none
  | _ => none

/-- `TextEditor::handle_event`: a resize event updates the stored size
first; then the event is routed to the handler of the current mode. -/
def handle_event (e : TextEditor) (ev : Event) : TextEditor × Option Action :=
  let e1 :=
    match ev with
    | .resize w h => { e with size := (w, h) }
    | _ => e
  match e1.mode with
  | .normal => (e1, handle_normal_event ev)
  | .insert => (e1, handle_insert_event ev)

/-- The session state at start-up when the named file is unreadable: an
empty buffer, cursor at the origin, scroll 0, Normal mode, no pending
chord, empty undo stack; the terminal is 80 by 24. -/
def emptyEd : TextEditor :=
  { buffer := { file := "Empty", lines := [] }
    size := (80, 24)
    cx := 0
    cy := 0
    mode := Mode.normal
    sv := 0
    command_wait := none
    undo := [] }

/-- A one-line buffer holding the single line "a". -/
def bufA : Buffer := { file := "Empty", lines := [['a']] }

/-- A session state on the one-line buffer `bufA`, cursor at the origin. -/
def oneLineEd : TextEditor := { emptyEd with buffer := bufA }

/-- A session state on `bufA` with the cursor column at the end of the
line (column 1 on a line of length 1), a position `bounds` permits. -/
def eolEd : TextEditor := { oneLineEd with cx := 1 }

/-- The empty-buffer state with scroll offset 1. -/
def svEd : TextEditor := { emptyEd with sv := 1 }

/-- A session state on the two-line buffer "abc" / "def", cursor at the
origin. -/
def edABC : TextEditor :=
  { emptyEd with buffer := { file := "Empty", lines := [['a', 'b', 'c'], ['d', 'e', 'f']] } }

/-- A one-line buffer holding the single line "ab". -/
def bufAB : Buffer := { file := "Empty", lines := [['a', 'b']] }

/-- The one-line session state with the delete-line chord armed. -/
def armedEd : TextEditor := { oneLineEd with command_wait := some 'd' }

/-- Lookup past the end of a list yields nothing. -/
theorem get?_none_of_le {l : List α} {i : Nat} (h : l.length ≤ i) : l[i]? = none := by
  induction l generalizing i with
  | nil => rfl
  | cons x xs ih =>
    cases i with
    | zero => exact absurd h (by simp)
    | succ n => simpa using ih (by simpa using h)

/-- A successful lookup is within bounds. -/
theorem get?_some_lt {l : List α} {i : Nat} {a : α} (h : l[i]? = some a) : i < l.length := by
  by_contra hc
  rw [get?_none_of_le (by omega)] at h
  exact Option.noConfusion h

/-- Any in-bounds index has a successful lookup. -/
theorem get?_some_of_lt {l : List α} {i : Nat} (h : i < l.length) : ∃ a, l[i]? = some a := by
  induction l generalizing i with
  | nil => simp at h
  | cons x xs ih =>
    cases i with
    | zero => exact ⟨x, by simp⟩
    | succ n => simpa using ih (by simpa using h)

/-- `Buffer::get` agrees with plain list lookup. -/
theorem Buffer.get_eq (b : Buffer) (y : Nat) : b.get y = b.lines[y]? := by
  unfold Buffer.get
  split
  · rfl
  · next h => exact (get?_none_of_le (by omega)).symm

/-- Erasure at an in-bounds index shortens the list by exactly one. -/
theorem length_eraseAt {l : List α} {i : Nat} (h : i < l.length) :
    (eraseAt l i).length + 1 = l.length := by
  induction l generalizing i with
  | nil => simp at h
  | cons x xs ih =>
    cases i with
    | zero => rfl
    | succ n => simpa [eraseAt] using ih (by simpa using h)

/-- Erasure leaves the entries before the erased index unchanged. -/
theorem get?_eraseAt_lt {l : List α} {i j : Nat} (h : j < i) :
    (eraseAt l i)[j]? = l[j]? := by
  induction l generalizing i j with
  | nil => rfl
  | cons x xs ih =>
    cases i with
    | zero => omega
    | succ n =>
      cases j with
      | zero => simp [eraseAt]
      | succ m => simpa [eraseAt] using ih (by omega)

/-- Erasure shifts the entries after the erased index left by one. -/
theorem get?_eraseAt_ge {l : List α} {i j : Nat} (hij : i ≤ j) (hi : i < l.length) :
    (eraseAt l i)[j]? = l[(j + 1)]? := by
  induction l generalizing i j with
  | nil => simp at hi
  | cons x xs ih =>
    cases i with
    | zero => simp [eraseAt]
    | succ n =>
      cases j with
      | zero => omega
      | succ m => simpa [eraseAt] using ih (by omega) (by simpa using hi)

/-- Insertion at the head slot is consing. -/
theorem insertAt_zero {l : List α} {a : α} : insertAt l 0 a = a :: l := by
  cases l <;> rfl

/-- Re-inserting the erased entry at its index undoes the erasure. -/
theorem insertAt_eraseAt {l : List α} {i : Nat} {a : α} (h : l[i]? = some a) :
    insertAt (eraseAt l i) i a = l := by
  induction l generalizing i with
  | nil => exact Option.noConfusion h
  | cons x xs ih =>
    cases i with
    | zero =>
      simp only [List.getElem?_cons_zero, Option.some.injEq] at h
      rw [h]
      exact insertAt_zero
    | succ n =>
      simp only [List.getElem?_cons_succ] at h
      show x :: insertAt (eraseAt xs n) n a = x :: xs
      rw [ih h]

/-- Setting an index to the value it already holds changes nothing. -/
theorem set_of_get?_eq {l : List α} {i : Nat} {a : α} (h : l[i]? = some a) :
    l.set i a = l := by
  induction l generalizing i with
  | nil => rfl
  | cons x xs ih =>
    cases i with
    | zero =>
      simp only [List.getElem?_cons_zero, Option.some.injEq] at h
      rw [List.set, h]
    | succ n =>
      simp only [List.getElem?_cons_succ] at h
      rw [List.set, ih h]

/-- Setting the appended slot of a one-longer list replaces it. -/
theorem set_concat_length {l : List α} {a v : α} : (l ++ [a]).set l.length v = l ++ [v] := by
  induction l with
  | nil => rfl
  | cons x xs ih =>
    show x :: (xs ++ [a]).set xs.length v = x :: (xs ++ [v])
    rw [ih]

/-- Lookup of the appended slot of a one-longer list. -/
theorem get?_concat_length {l : List α} {a : α} : (l ++ [a])[l.length]? = some a := by
  induction l with
  | nil => rfl
  | cons x xs ih => simp

/-- Truncation is the identity below the `u16` bound. -/
theorem u16mask_of_lt {n : Nat} (h : n < 65536) : u16mask n = n := by
  unfold u16mask
  omega

/-- Wrapping addition agrees with addition below the `u16` bound. -/
theorem add16_of_lt {a b : Nat} (h : a + b < 65536) : add16 a b = a + b := by
  unfold add16 u16mask
  omega

/-- Wrapping subtraction agrees with truncated subtraction below the
`u16` bound. -/
theorem sub16_of_le {a b : Nat} (hb : b ≤ a) (ha : a < 65536) : sub16 a b = a - b := by
  unfold sub16 u16mask
  omega

/-- Claim C1: dispatching delete-character or the delete-line chord when
no line exists at `cy + sv` — here on the empty start-up buffer — does
not complete as a no-op: both arms call `Buffer::get(0).unwrap()` on
`None` and panic, contradicting the specified failure semantics. -/
theorem claim1_out_of_range_dispatch_panics :
    dispatch emptyEd Action.deleteChar = StepResult.panic ∧
    dispatch emptyEd Action.deleteLine = StepResult.panic := by
  decide

/-- Claim C2: on the empty buffer with cursor (0,0) and scroll 0,
insert-line-below computes target index `0 + 0 + 1 = 1` and calls
`Vec::insert(1, ...)` on a vector of length 0, which panics instead of
adding the empty line the specification's scenario requires. -/
theorem claim2_insertLineBelow_empty_panics :
    dispatch emptyEd Action.insertLineBelow = StepResult.panic := by
  decide

/-- Claim C3, counterexample: on the one-line buffer "a", removing at
column 1 — at the end of an existing line — is not a no-op: the
`String::remove` call panics. -/
theorem claim3_counterexample :
    Buffer.remove bufA 1 0 = none ∧ Buffer.remove bufA 1 0 ≠ some bufA := by
  decide

/-- Claim C3, amended: `removeChar(col, lineIndex)` removes exactly one
character at `col` (entries below `col` kept, entries above shifted left)
when the line exists and `col` is strictly within its length; it is a
no-op when the line does not exist; and it panics when the line exists
but `col` is at or past its end. -/
theorem claim3_remove_amended (b : Buffer) (x y : Nat) :
    (∀ l, b.lines[y]? = some l → x < l.length →
      Buffer.remove b x y = some { b with lines := b.lines.set y (eraseAt l x) } ∧
      (eraseAt l x).length + 1 = l.length ∧
      (∀ j, j < x → (eraseAt l x)[j]? = l[j]?) ∧
      (∀ j, x ≤ j → (eraseAt l x)[j]? = l[(j + 1)]?)) ∧
    (b.lines[y]? = none → Buffer.remove b x y = some b) ∧
    (∀ l, b.lines[y]? = some l → l.length ≤ x → Buffer.remove b x y = none) := by
  refine ⟨?_, ?_, ?_⟩
  · intro l hl hx
    refine ⟨?_, length_eraseAt hx, fun j hj => get?_eraseAt_lt hj,
      fun j hj => get?_eraseAt_ge hj hx⟩
    have h2 : strRemove l x = some (eraseAt l x) := by
      unfold strRemove
      rw [if_pos hx]
    unfold Buffer.remove
    simp [hl, h2]
  · intro hl
    unfold Buffer.remove
    rw [hl]
  · intro l hl hx
    have h2 : strRemove l x = none := by
      unfold strRemove
      rw [if_neg (by omega)]
    unfold Buffer.remove
    simp [hl, h2]

/-- Claim C3, witness: on the line "ab", removal at column 0 yields "b",
removal addressed at a missing line 3 is a no-op, and removal at column 2
of the length-2 line panics. -/
theorem claim3_remove_amended_witness :
    Buffer.remove bufAB 0 0 = some { bufAB with lines := [['b']] } ∧
    Buffer.remove bufAB 0 3 = some bufAB ∧
    Buffer.remove bufAB 2 0 = none := by
  refine ⟨?_, ?_, ?_⟩
  · have h := ((claim3_remove_amended bufAB 0 0).1 ['a', 'b'] rfl (by decide)).1
    rw [h]
    decide
  · exact (claim3_remove_amended bufAB 0 3).2.1 rfl
  · exact (claim3_remove_amended bufAB 2 0).2.2 ['a', 'b'] rfl (by decide)

/-- Claim C6, counterexample: on the empty buffer, `insertChar(1, 0, c)`
has `lineIndex == len`, so one empty line is appended — but the character
is then inserted at column 1 of that empty line, and `String::insert`
panics instead of completing the claimed insertion. -/
theorem claim6_counterexample :
    Buffer.insert { file := "Empty", lines := [] } 1 0 'a' = none := by
  decide

/-- Claim C6, amended: with `lineIndex == len` and column 0 the buffer
grows by exactly one line holding just the character; with
`lineIndex == len` and a positive column the appended line is empty and
the `String::insert` panics; with `lineIndex > len` the call is a silent
no-op. -/
theorem claim6_insert_amended (b : Buffer) (x y : Nat) (c : Char) :
    (y = b.lines.length → x = 0 →
      Buffer.insert b x y c = some { b with lines := b.lines ++ [[c]] }) ∧
    (y = b.lines.length → 0 < x → Buffer.insert b x y c = none) ∧
    (b.lines.length < y → Buffer.insert b x y c = some b) := by
  refine ⟨?_, ?_, ?_⟩
  · intro hy hx
    subst hy
    subst hx
    have h2 : strInsert ([] : Line) 0 c = some [c] := by
      unfold strInsert
      simp [insertAt_zero]
    unfold Buffer.insert
    rw [if_pos rfl]
    simp [get?_concat_length, h2, set_concat_length]
  · intro hy hx
    subst hy
    have h2 : strInsert ([] : Line) x c = none := by
      unfold strInsert
      rw [if_neg (by simp only [List.length_nil]; omega)]
    unfold Buffer.insert
    rw [if_pos rfl]
    simp [get?_concat_length, h2]
  · intro hy
    have h1 : ¬ b.lines.length = y := by omega
    have h3 : b.lines[y]? = none := get?_none_of_le (by omega)
    unfold Buffer.insert
    rw [if_neg h1]
    simp [h3]

/-- Claim C6, witness: appending to the one-line buffer "a" at
`lineIndex == len == 1`, column 0, yields the two lines "a" and "z";
addressing the gap index 2 is a silent no-op. -/
theorem claim6_insert_amended_witness :
    Buffer.insert bufA 0 1 'z' = some { file := "Empty", lines := [['a'], ['z']] } ∧
    Buffer.insert bufA 0 2 'z' = some bufA := by
  constructor
  · have h := (claim6_insert_amended bufA 0 1 'z').1 rfl rfl
    rw [h]
    decide
  · exact (claim6_insert_amended bufA 0 2 'z').2.2 (by decide)

/-- Unfolding of `TextEditor::bounds` into its three outcomes. -/
theorem bounds_spec (e : TextEditor) :
    e.bounds =
      if e.sv + e.cy ≥ e.buffer.lines.length then
        if e.buffer.lines.length > 0 then
          { e with cx := min e.cx e.current_line_len,
                   cy := sub16 (sub16 e.buffer.lines.length e.sv) 1 }
        else
          { e with cx := min e.cx e.current_line_len,
                   cy := sub16 e.buffer.lines.length e.sv }
      else
        { e with cx := min e.cx e.current_line_len } := by
  rfl

/-- Claim C4, counterexample: on the empty buffer with scroll offset 1
the clamp routine computes `cy` as `0u16 - 1u16 - 0`, which wraps to
65535 (and panics outright in a debug build) instead of setting the row
to 0 as claimed for empty buffers. -/
theorem claim4_counterexample :
    (TextEditor.bounds svEd).cy = 65535 ∧ (TextEditor.bounds svEd).cy ≠ 0 := by
  decide

/-- Claim C4, amended: when the line count fits in `u16` and the scroll
offset is strictly below the line count, the clamp leaves
`sv + cy < lineCount` and `cx` no larger than the length of the line at
`cy + sv`; when the buffer is empty the row is reset to 0 only for
scroll offset 0 (for positive offsets the `u16` subtraction wraps, as
the counterexample shows). -/
theorem claim4_bounds_amended (e : TextEditor) (hlen : e.buffer.lines.length < 65536) :
    (0 < e.buffer.lines.length → e.sv < e.buffer.lines.length →
      e.bounds.sv + e.bounds.cy < e.buffer.lines.length ∧
      ∃ l, e.buffer.lines[(e.bounds.cy + e.bounds.sv)]? = some l ∧ e.bounds.cx ≤ l.length) ∧
    (e.buffer.lines = [] → e.sv = 0 → e.bounds.cy = 0 ∧ e.bounds.cx = 0) := by
  constructor
  · intro h0 hsv
    by_cases hin : e.sv + e.cy ≥ e.buffer.lines.length
    · have hclen : e.current_line_len = 0 := by
        unfold TextEditor.current_line_len
        rw [Buffer.get_eq, get?_none_of_le (by omega)]
      have hcy : sub16 (sub16 e.buffer.lines.length e.sv) 1 =
          e.buffer.lines.length - e.sv - 1 := by
        rw [sub16_of_le (by omega) hlen, sub16_of_le (by omega) (by omega)]
      have hb : e.bounds = { e with cx := min e.cx e.current_line_len, cy := sub16 (sub16 e.buffer.lines.length e.sv) 1 } := by
        rw [bounds_spec, if_pos hin, if_pos h0]
      rw [hb]
      simp only [hclen, hcy, Nat.min_zero]
      constructor
      · omega
      · obtain ⟨l, hl⟩ := get?_some_of_lt
          (show e.buffer.lines.length - e.sv - 1 + e.sv < e.buffer.lines.length by omega)
        exact ⟨l, hl, Nat.zero_le _⟩
    · have hb : e.bounds = { e with cx := min e.cx e.current_line_len } := by
        rw [bounds_spec, if_neg hin]
      rw [hb]
      simp only []
      constructor
      · omega
      · obtain ⟨l, hl⟩ := get?_some_of_lt (show e.cy + e.sv < e.buffer.lines.length by omega)
        refine ⟨l, hl, ?_⟩
        have hc : e.current_line_len = u16mask l.length := by
          unfold TextEditor.current_line_len
          rw [Buffer.get_eq, hl]
        rw [hc]
        calc min e.cx (u16mask l.length) ≤ u16mask l.length := Nat.min_le_right _ _
          _ ≤ l.length := Nat.mod_le _ _
  · intro hnil hsv0
    have hclen : e.current_line_len = 0 := by
      unfold TextEditor.current_line_len
      rw [Buffer.get_eq, hnil]
      rfl
    have hlen0 : e.buffer.lines.length = 0 := by
      rw [hnil]
      rfl
    have hb : e.bounds = { e with cx := min e.cx e.current_line_len, cy := sub16 e.buffer.lines.length e.sv } := by
      rw [bounds_spec, if_pos (by omega), if_neg (by omega)]
    rw [hb]
    constructor
    · show sub16 e.buffer.lines.length e.sv = 0
      rw [hlen0, hsv0]
      decide
    · show min e.cx e.current_line_len = 0
      rw [hclen]
      simp

/-- Claim C4, witness: on the one-line buffer with scroll 0 and a cursor
far past the end, the clamp pulls the cursor back onto line 0; on the
empty start-up state it resets the row to 0. -/
theorem claim4_bounds_amended_witness :
    (oneLineEd.bounds.sv + oneLineEd.bounds.cy < oneLineEd.buffer.lines.length ∧
      ∃ l, oneLineEd.buffer.lines[(oneLineEd.bounds.cy + oneLineEd.bounds.sv)]? = some l ∧
        oneLineEd.bounds.cx ≤ l.length) ∧
    (emptyEd.bounds.cy = 0 ∧ emptyEd.bounds.cx = 0) :=
  ⟨(claim4_bounds_amended oneLineEd (by decide)).1 (by decide) (by decide),
   (claim4_bounds_amended emptyEd (by decide)).2 rfl rfl⟩

/-- Claim C5, counterexample: on a one-line buffer with the cursor on
line 0 there is no line at `cy + sv + 1 = 1`, yet move-down still
increments the row to 1, because the code's guard tests for a line at
`cy + sv`, not at `cy + sv + 1`. -/
theorem claim5_counterexample :
    dispatch oneLineEd Action.moveDown = StepResult.next { oneLineEd with cy := 1 } ∧
    oneLineEd.buffer.lines[1]? = none := by
  decide

/-- Claim C5, amended: move-down increments the row exactly when a line
exists at the cursor's current absolute index `cy + sv` (one earlier
than the claim states); when the incremented row reaches
`viewportHeight - 1` it is decremented back and `sv` is incremented; so
for in-range `u16` quantities, a viewport of height at least 2 and a
cursor starting at or above row `viewportHeight - 2`, the row stays at
or above `viewportHeight - 2` and nothing but `cy` and `sv` changes. -/
theorem claim5_moveDown_amended (e : TextEditor)
    (hlen : e.buffer.lines.length < 65536)
    (hsum : e.cy + e.sv < 65536)
    (hh2 : 2 ≤ e.size.2) (hh : e.size.2 < 65536)
    (hcy : e.cy ≤ e.size.2 - 2) :
    ∃ e2, dispatch e Action.moveDown = StepResult.next e2 ∧
      e2.cy ≤ e.size.2 - 2 ∧
      (e.cy + e.sv < e.buffer.lines.length →
        (e.cy + 1 < e.size.2 - 1 → e2.cy = e.cy + 1 ∧ e2.sv = e.sv) ∧
        (e.size.2 - 1 ≤ e.cy + 1 → e2.cy = e.cy ∧ e2.sv = e.sv + 1)) ∧
      (e.buffer.lines.length ≤ e.cy + e.sv → e2.cy = e.cy ∧ e2.sv = e.sv) ∧
      e2.buffer = e.buffer ∧ e2.cx = e.cx ∧ e2.mode = e.mode ∧ e2.undo = e.undo ∧
      e2.command_wait = e.command_wait := by
  have hmask : u16mask e.buffer.lines.length = e.buffer.lines.length := u16mask_of_lt hlen
  have haddsv : add16 e.cy e.sv = e.cy + e.sv := add16_of_lt hsum
  have hadd1 : add16 e.cy 1 = e.cy + 1 := add16_of_lt (by omega)
  have hsubh : sub16 e.size.2 1 = e.size.2 - 1 := sub16_of_le (by omega) hh
  by_cases hA : u16mask e.buffer.lines.length > add16 e.cy e.sv
  · have hA' : e.cy + e.sv < e.buffer.lines.length := by
      rw [hmask, haddsv] at hA
      exact hA
    by_cases hB : sub16 e.size.2 1 ≤ add16 e.cy 1
    · have hB' : e.size.2 - 1 ≤ e.cy + 1 := by
        rw [hsubh, hadd1] at hB
        exact hB
      have hsub1 : sub16 (add16 e.cy 1) 1 = e.cy := by
        rw [hadd1, sub16_of_le (by omega) (by omega)]
        omega
      refine ⟨{ e with cy := sub16 (add16 e.cy 1) 1, sv := e.sv + 1 }, ?_, ?_, ?_, ?_,
        rfl, rfl, rfl, rfl, rfl⟩
      · simp [dispatch, hA, hB]
      · simp only [hsub1]
        exact hcy
      · exact fun _ => ⟨fun hlt => absurd hB' (by omega), fun _ => ⟨by simp [hsub1], rfl⟩⟩
      · intro hout
        exact absurd hA' (by omega)
    · have hB' : e.cy + 1 < e.size.2 - 1 := by
        rw [hsubh, hadd1] at hB
        omega
      refine ⟨{ e with cy := add16 e.cy 1 }, ?_, ?_, ?_, ?_, rfl, rfl, rfl, rfl, rfl⟩
      · simp [dispatch, hA, hB]
      · simp only [hadd1]
        omega
      · exact fun _ => ⟨fun _ => ⟨by simp [hadd1], rfl⟩, fun hge => absurd hge (by omega)⟩
      · intro hout
        exact absurd hA' (by omega)
  · have hA' : e.buffer.lines.length ≤ e.cy + e.sv := by
      rw [hmask, haddsv] at hA
      omega
    have hC : ¬ sub16 e.size.2 1 ≤ e.cy := by
      rw [hsubh]
      omega
    refine ⟨e, ?_, hcy, ?_, fun _ => ⟨rfl, rfl⟩, rfl, rfl, rfl, rfl, rfl⟩
    · simp [dispatch, hA, hC]
    · intro hlt
      exact absurd hA' (by omega)

/-- Claim C5, witness: on the one-line buffer in a 24-row terminal,
move-down from row 0 increments the row to 1 (the code's actual guard
admits it) and scrolls nothing. -/
theorem claim5_moveDown_amended_witness :
    ∃ e2, dispatch oneLineEd Action.moveDown = StepResult.next e2 ∧
      e2.cy = 0 + 1 ∧ e2.sv = 0 := by
  obtain ⟨e2, h1, _, h3, _⟩ :=
    claim5_moveDown_amended oneLineEd (by decide) (by decide) (by decide) (by decide) (by decide)
  obtain ⟨h4, _⟩ := h3 (by decide)
  obtain ⟨h5, h6⟩ := h4 (by decide)
  exact ⟨e2, h1, h5, h6⟩

/-- Claim C7, counterexample: on the line "a" with the cursor at column
1 — a position the clamp allows, since the column may equal the line
length — delete-character panics in `String::remove` (and in the
`chars().nth().unwrap()` capture), so no undo can restore anything. -/
theorem claim7_counterexample :
    dispatch eolEd Action.deleteChar = StepResult.panic := by
  decide

/-- Claim C7, amended: whenever the cursor column is strictly inside the
current line (column < length, not merely ≤), delete-character removes
the character at the cursor, pushes the matching re-insert-character
undo entry, and one undo restores the buffer, the undo stack and the
whole cursor state exactly; the "abc"/"def" scenario of the claim is the
witness. -/
theorem claim7_delete_undo_amended (e : TextEditor) (l : Line) (c : Char)
    (hl : e.buffer.get (add16 e.cy e.sv) = some l)
    (hc : l[e.cx]? = some c) :
    ∃ e2 e3,
      dispatch e Action.deleteChar = StepResult.next e2 ∧
      e2.buffer.lines = e.buffer.lines.set (add16 e.cy e.sv) (eraseAt l e.cx) ∧
      e2.undo = Action.insertChar e.cx (add16 e.cy e.sv) c :: e.undo ∧
      dispatch e2 Action.undo = StepResult.next e3 ∧
      e3.buffer = e.buffer ∧ e3.undo = e.undo ∧
      e3.cx = e.cx ∧ e3.cy = e.cy ∧ e3.sv = e.sv ∧ e3.mode = e.mode := by
  have hget : e.buffer.lines[(add16 e.cy e.sv)]? = some l := by
    rw [← Buffer.get_eq]
    exact hl
  have hyl : add16 e.cy e.sv < e.buffer.lines.length := get?_some_lt hget
  have hxl : e.cx < l.length := get?_some_lt hc
  have hlpos : l.length > 0 := by omega
  have hrem : e.buffer.remove e.cx (add16 e.cy e.sv) = some { e.buffer with lines := e.buffer.lines.set (add16 e.cy e.sv) (eraseAt l e.cx) } := by
    have h2 : strRemove l e.cx = some (eraseAt l e.cx) := by
      unfold strRemove
      rw [if_pos hxl]
    unfold Buffer.remove
    simp [hget, h2]
  have hd1 : dispatch e Action.deleteChar = StepResult.next { e with buffer := { e.buffer with lines := e.buffer.lines.set (add16 e.cy e.sv) (eraseAt l e.cx) }, undo := Action.insertChar e.cx (add16 e.cy e.sv) c :: e.undo } := by
    simp [dispatch, hl, hlpos, hrem, hc]
  have hins : Buffer.insert { e.buffer with lines := e.buffer.lines.set (add16 e.cy e.sv) (eraseAt l e.cx) } e.cx (add16 e.cy e.sv) c = some e.buffer := by
    have hget2 : (e.buffer.lines.set (add16 e.cy e.sv) (eraseAt l e.cx))[(add16 e.cy e.sv)]? = some (eraseAt l e.cx) :=
      List.getElem?_set_eq_of_lt _ (by simpa using hyl)
    have h3 : strInsert (eraseAt l e.cx) e.cx c = some l := by
      unfold strInsert
      rw [if_pos (by have := length_eraseAt hxl; omega), insertAt_eraseAt hc]
    unfold Buffer.insert
    rw [if_neg (by rw [List.length_set]; omega)]
    simp [hget2, h3, List.set_set, set_of_get?_eq hget]
  have hd2 : dispatch { e with buffer := { e.buffer with lines := e.buffer.lines.set (add16 e.cy e.sv) (eraseAt l e.cx) }, undo := Action.insertChar e.cx (add16 e.cy e.sv) c :: e.undo } Action.undo = StepResult.next { e with buffer := e.buffer, undo := e.undo } := by
    simp [dispatch, hins]
  exact ⟨_, _, hd1, rfl, rfl, hd2, rfl, rfl, rfl, rfl, rfl, rfl⟩

/-- Claim C7, witness: the claim's own scenario — buffer "abc"/"def",
cursor (0,0): delete-character yields "bc"/"def" with the single
re-insert-character(0,0,'a') entry, and undo restores "abc"/"def" with
an empty stack. -/
theorem claim7_delete_undo_amended_witness :
    ∃ e2 e3,
      dispatch edABC Action.deleteChar = StepResult.next e2 ∧
      e2.buffer.lines = [['b', 'c'], ['d', 'e', 'f']] ∧
      e2.undo = [Action.insertChar 0 0 'a'] ∧
      dispatch e2 Action.undo = StepResult.next e3 ∧
      e3.buffer = edABC.buffer ∧ e3.undo = [] := by
  obtain ⟨e2, e3, h1, h2, h3, h4, h5, h6, _⟩ :=
    claim7_delete_undo_amended edABC ['a', 'b', 'c'] 'a' (by decide) (by decide)
  refine ⟨e2, e3, h1, ?_, ?_, h4, h5, ?_⟩
  · rw [h2]
    decide
  · rw [h3]
    decide
  · rw [h6]
    rfl

/-- Claim C8, counterexample: with the pending-chord slot empty, pressing
the chord key on the empty buffer does not set the slot — the
`Buffer::get(0).unwrap()` at the top of the delete-line arm panics
before the slot is even examined. -/
theorem claim8_counterexample :
    emptyEd.command_wait = none ∧ dispatch emptyEd Action.deleteLine = StepResult.panic := by
  decide

/-- Claim C8, amended: provided a line exists at the cursor's absolute
position (on an empty buffer the arm panics instead), the first press of
'd' with an empty slot only sets the slot, a second press with the slot
set deletes the current line, pushes the re-insert-line undo entry and
clears the slot; and no action other than the delete-line action ever
changes the slot — in particular unrelated keys and mode switches leave
an armed slot armed. -/
theorem claim8_chord_amended (e : TextEditor) :
    (∀ l, e.buffer.get (add16 e.cy e.sv) = some l → e.command_wait = none →
      dispatch e Action.deleteLine = StepResult.next { e with command_wait := some 'd' }) ∧
    (∀ l, e.buffer.get (add16 e.cy e.sv) = some l → e.command_wait = some 'd' →
      ∃ e2, dispatch e Action.deleteLine = StepResult.next e2 ∧
        e2.buffer.lines = eraseAt e.buffer.lines (add16 e.cy e.sv) ∧
        e2.undo = Action.insertLine (add16 e.cy e.sv) l :: e.undo ∧
        e2.command_wait = none ∧ e2.cx = e.cx ∧ e2.cy = e.cy ∧ e2.sv = e.sv ∧
        e2.mode = e.mode) ∧
    (∀ a e2, a ≠ Action.deleteLine → dispatch e a = StepResult.next e2 →
      e2.command_wait = e.command_wait) := by
  refine ⟨?_, ?_, ?_⟩
  · intro l hl hw
    simp [dispatch, hl, hw]
  · intro l hl hw
    have hget : e.buffer.lines[(add16 e.cy e.sv)]? = some l := by
      rw [← Buffer.get_eq]
      exact hl
    have hlt : add16 e.cy e.sv < e.buffer.lines.length := get?_some_lt hget
    have hv : vecRemove e.buffer.lines (add16 e.cy e.sv) = some (eraseAt e.buffer.lines (add16 e.cy e.sv)) := by
      unfold vecRemove
      rw [if_pos hlt]
    refine ⟨{ e with buffer := { e.buffer with lines := eraseAt e.buffer.lines (add16 e.cy e.sv) }, undo := Action.insertLine (add16 e.cy e.sv) l :: e.undo, command_wait := none }, ?_, rfl, rfl, rfl, rfl, rfl, rfl, rfl⟩
    simp [dispatch, hl, hw, hv, show e.buffer.lines.length > 0 by omega]
  · intro a e2 ha hd
    cases a
    case deleteLine => exact absurd rfl ha
    all_goals (
      simp only [dispatch] at hd
      repeat' split at hd
      all_goals (cases hd <;> rfl))

/-- Claim C8, witness: on the one-line buffer "a", the first press arms
the slot; the second press deletes the line, records the
re-insert-line(0, "a") entry and clears the slot. -/
theorem claim8_chord_amended_witness :
    dispatch oneLineEd Action.deleteLine = StepResult.next armedEd ∧
    ∃ e2, dispatch armedEd Action.deleteLine = StepResult.next e2 ∧
      e2.buffer.lines = [] ∧ e2.undo = [Action.insertLine 0 ['a']] ∧
      e2.command_wait = none := by
  constructor
  · exact (claim8_chord_amended oneLineEd).1 ['a'] (by decide) rfl
  · obtain ⟨e2, h1, h2, h3, h4, _⟩ :=
      (claim8_chord_amended armedEd).2.1 ['a'] (by decide) rfl
    refine ⟨e2, h1, ?_, ?_, h4⟩
    · rw [h2]
      decide
    · rw [h3]
      decide

/-- Claim C9: applying undo with an empty undo stack returns the session
state unchanged — buffer, cursor, scroll offset, mode and the still
empty stack. -/
theorem claim9_undo_empty_noop (e : TextEditor) (h : e.undo = []) :
    dispatch e Action.undo = StepResult.next e := by
  simp [dispatch, h]

/-- Claim C9, witness: undo on the start-up state with its empty stack. -/
theorem claim9_undo_empty_noop_witness :
    dispatch emptyEd Action.undo = StepResult.next emptyEd :=
  claim9_undo_empty_noop emptyEd rfl

/-- Claim C10: move-left saturates at column 0 (no wrap-around), strictly
decrements a positive column by one, and changes nothing else of the
session state. -/
theorem claim10_moveLeft_semantics (e : TextEditor) :
    ∃ e2, dispatch e Action.moveLeft = StepResult.next e2 ∧
      (e.cx = 0 → e2.cx = 0) ∧
      (∀ n, e.cx = n + 1 → e2.cx = n) ∧
      e2.buffer = e.buffer ∧ e2.cy = e.cy ∧ e2.sv = e.sv ∧ e2.mode = e.mode ∧
      e2.undo = e.undo ∧ e2.command_wait = e.command_wait ∧ e2.size = e.size := by
  refine ⟨{ e with cx := e.cx - 1 }, rfl, ?_, ?_, rfl, rfl, rfl, rfl, rfl, rfl, rfl⟩
  · intro h
    simp [h]
  · intro n h
    simp [h]

/-- Claim C10, witness: move-left from column 1 lands on column 0 of the
same state. -/
theorem claim10_moveLeft_semantics_witness :
    ∃ e2, dispatch eolEd Action.moveLeft = StepResult.next e2 ∧ e2.cx = 0 := by
  obtain ⟨e2, h1, h2, h3, _⟩ := claim10_moveLeft_semantics eolEd
  exact ⟨e2, h1, h3 0 rfl⟩

end Zen
